import Mathlib

/-!
Shallow embedding of `src/generate-docker-compose.py` (repository cidrx).

The script builds, in memory, a docker-compose document: a `services`
mapping (three fixed infrastructure services `proxy`, `cidrx`, `filebeat`,
then one client service per (segment, slot) pair), a `networks` mapping
(one bridge network per configured range), and a `volumes` mapping with the
single `filebeat_data` volume.  Python dicts preserve insertion order, so
both mappings are modelled as insertion-ordered association lists and the
dict-assignment `d[k] = v` is modelled by `dinsert` (update in place when
the key exists, append otherwise).

Client addresses are computed textually, exactly as in the source:
`base = subnet.rsplit('.', 1)[0]` and the address for slot `j` is the
string `base + "." + str(31 + j)`.  The source performs no input
validation and raises no exception on any (string, int, float) input:
the embedding `generate_compose` is accordingly a total function from the
list of segment specs to the document.  (The source reads the module
constant `RANGES`; the claims quantify over the input list, so the
embedding takes the list as the argument and `RANGES` is the concrete
configuration from the source.)

Spec-level vocabulary that the source never computes — parsing a dotted
quad, parsing a CIDR, membership of an address in a CIDR range — is
defined here from its standard meaning (`parseIPv4`, `parseCIDR`,
`inRange`) in order to state the range-membership claims.
-/

/-- Decimal digit list of a natural number, most significant first;
fuel-based so that it is structurally recursive (any fuel above `n`
gives the true decimal digits).  Agrees with Python `str` on
nonnegative integers. -/
def natToDecAux : Nat → Nat → List Char
  | 0, _ => []
  | fuel + 1, n =>
    if n < 10 then [Nat.digitChar n]
    else natToDecAux fuel (n / 10) ++ [Nat.digitChar (n % 10)]

/-- Decimal string of a natural number (Python `str(n)` / f-string rendering). -/
def natS (n : Nat) : String := ⟨natToDecAux (n + 1) n⟩

/-- Numeric value of a decimal digit list (the inverse of `natToDecAux`). -/
def decValue (cs : List Char) : Nat := cs.foldl (fun a c => a * 10 + (c.toNat - 48)) 0

/-- Split a character list on a separator character; the analogue of
Python `str.split(sep)` at the character level. -/
def splitOnC (sep : Char) : List Char → List (List Char)
  | [] => [[]]
  | c :: cs =>
    if c = sep then [] :: splitOnC sep cs
    else
      match splitOnC sep cs with
      | [] => [[c]]
      | t :: ts => (c :: t) :: ts

/-- Re-join the pieces produced by `splitOnC`. -/
def joinSep (sep : Char) : List (List Char) → List Char
  | [] => []
  | [x] => x
  | x :: xs => x ++ sep :: joinSep sep xs

/-- Everything before the last `'.'` of a string, the whole string when it
has no dot: Python `s.rsplit('.', 1)[0]`. -/
def rsplitBase (s : String) : String :=
  if '.' ∈ s.data then ⟨((s.data.reverse.dropWhile fun c => c != '.').drop 1).reverse⟩
  else s

/-- One entry of the `RANGES` configuration: a (subnet, client count,
interval) tuple.  The count is a Python `int` (so possibly non-positive),
the interval a numeric literal, modelled as a rational. -/
structure SegmentSpec where
  subnet : String
  count : Int
  interval : Rat
deriving DecidableEq, Repr

/-- A YAML scalar appearing as an environment value: either a string or a
number. -/
inductive EnvVal where
  | str : String → EnvVal
  | num : Rat → EnvVal
deriving DecidableEq, Repr

/-- A build context reference (`context` + `dockerfile`). -/
structure BuildT where
  context : String
  dockerfile : String
deriving DecidableEq, Repr

def PROXY_BUILD : BuildT := ⟨"./proxy", "Dockerfile"⟩

def CLIENT_BUILD : BuildT := ⟨"./client", "Dockerfile"⟩

def FILEBEAT_BUILD : BuildT := ⟨"./filebeat", "Dockerfile"⟩

def CIDRX_BUILD : BuildT := ⟨"./cidrx", "Dockerfile"⟩

def TARGET_URL : String := "http://proxy:80/"

/-- The hardcoded network configuration from the source. -/
def RANGES : List SegmentSpec :=
  [⟨"172.16.1.0/24", 4, 0.1⟩, ⟨"172.16.2.0/24", 2, 0.1⟩,
   ⟨"172.16.3.0/24", 5, 0.1⟩, ⟨"172.16.16.0/24", 33, 0.07⟩]

/-- A service definition: the keys the script puts into a service dict.
`none` models an absent key.  `networks` maps each joined network name
to an optional fixed `ipv4_address`. -/
structure ServiceDef where
  build : BuildT
  container_name : String
  restart : Option String
  ports : Option (List String)
  user : Option String
  depends_on : Option (List String)
  volumes : Option (List String)
  networks : List (String × Option String)
  environment : Option (List (String × EnvVal))
deriving DecidableEq, Repr

/-- A network definition: bridge driver plus IPAM config with a list of
subnets (the script always supplies exactly one). -/
structure NetworkDef where
  driver : String
  ipamDriver : String
  ipamSubnets : List String
deriving DecidableEq, Repr

/-- The document the script assembles: insertion-ordered maps for
services, networks and volumes. -/
structure Compose where
  services : List (String × ServiceDef)
  networks : List (String × NetworkDef)
  volumes : List (String × Unit)
deriving DecidableEq, Repr

/-- Python dict assignment `m[k] = v` on an insertion-ordered association
list: overwrite in place when the key is present, append otherwise. -/
def dinsert (m : List (String × α)) (k : String) (v : α) : List (String × α) :=
  if m.any (fun p => p.1 == k) then m.map (fun p => if p.1 == k then (k, v) else p)
  else m ++ [(k, v)]

/-- Lookup in an insertion-ordered association list. -/
def dlookup (m : List (String × α)) (k : String) : Option α :=
  match m with
  | [] => none
  | (k', v) :: r => if k' == k then some v else dlookup r k

/-- The derived network name `f'net{i}'`. -/
def netName (i : Nat) : String := "net" ++ natS i

/-- The derived client service name `f'client{i}_{j}'`. -/
def clientName (i j : Nat) : String := "client" ++ natS i ++ "_" ++ natS j

/-- The address assigned to slot `j` of a segment:
`f"{subnet.rsplit('.', 1)[0]}.{31 + j}"`. -/
def clientAddr (subnet : String) (j : Nat) : String :=
  rsplitBase subnet ++ "." ++ natS (31 + j)

/-- `proxy_nets`: membership (with no fixed address) in every network
`net1 .. netN` where `N` is the number of configured ranges. -/
def proxyNets (n : Nat) : List (String × Option String) :=
  (List.range n).map fun i => (netName (i + 1), none)

/-- The `proxy` service definition. -/
def proxyDef (n : Nat) : ServiceDef where
  build := PROXY_BUILD
  container_name := "proxy"
  restart := some "unless-stopped"
  ports := some ["80"]
  user := none
  depends_on := none
  volumes := some ["/tmp:/var/log/nginx:rw"]
  networks := proxyNets n
  environment := none

/-- The `cidrx` (indexer) service definition. -/
def cidrxDef (n : Nat) : ServiceDef where
  build := CIDRX_BUILD
  container_name := "cidrx"
  restart := some "unless-stopped"
  ports := some ["9000:9000"]
  user := none
  depends_on := none
  volumes := none
  networks := proxyNets n
  environment := none

/-- The `filebeat` (log shipper) service definition. -/
def filebeatDef (n : Nat) : ServiceDef where
  build := FILEBEAT_BUILD
  container_name := "filebeat"
  restart := some "unless-stopped"
  ports := none
  user := some "root"
  depends_on := some ["proxy", "cidrx"]
  volumes := some ["/tmp:/var/log/nginx:ro", "filebeat_data:/usr/share/filebeat/data"]
  networks := proxyNets n
  environment := some [("INGESTOR_HOST", .str "cidrx:9000"), ("PROXY_CONTAINER_NAME", .str "proxy")]

/-- A client service definition for a given network, fixed address,
interval and derived name. -/
def clientDef (netN addr : String) (interval : Rat) (name : String) : ServiceDef where
  build := CLIENT_BUILD
  container_name := name
  restart := none
  ports := none
  user := none
  depends_on := some ["proxy"]
  volumes := none
  networks := [(netN, some addr)]
  environment := some [("TARGET_URL", .str TARGET_URL), ("INTERVAL", .num interval)]

/-- The network definition built for a configured subnet. -/
def networkDef (subnet : String) : NetworkDef where
  driver := "bridge"
  ipamDriver := "default"
  ipamSubnets := [subnet]

/-- The inner loop `for j in range(1, count+1)`: insert one client service
per slot of segment `i` (0-based segment index, as in `enumerate`). -/
def addClients (i : Nat) (sp : SegmentSpec) (svcs : List (String × ServiceDef)) :
    List (String × ServiceDef) :=
  (List.range' 1 sp.count.toNat).foldl
    (fun s j =>
      dinsert s (clientName (i + 1) j)
        (clientDef (netName (i + 1)) (clientAddr sp.subnet j) sp.interval (clientName (i + 1) j)))
    svcs

/-- The outer loop `for i, (subnet, count, interval) in enumerate(RANGES)`:
register the segment's network and its client services. -/
def segLoop : Nat → List SegmentSpec →
    List (String × ServiceDef) × List (String × NetworkDef) →
    List (String × ServiceDef) × List (String × NetworkDef)
  | _, [], acc => acc
  | i, sp :: rest, (svcs, nets) =>
      segLoop (i + 1) rest
        (addClients i sp svcs, dinsert nets (netName (i + 1)) (networkDef sp.subnet))

/-- The expansion performed by `generate_compose` in the source, as a
function of the configured range list: build the three infrastructure
services, then one network and `count` clients per range, and assemble
the document (the source then hands the document to `yaml.dump` with
`sort_keys=False`, which preserves this insertion order). -/
def generate_compose (ranges : List SegmentSpec) : Compose :=
  let n := ranges.length
  let svcs0 :=
    dinsert (dinsert (dinsert [] "proxy" (proxyDef n)) "cidrx" (cidrxDef n)) "filebeat"
      (filebeatDef n)
  let acc := segLoop 0 ranges (svcs0, [])
  { services := acc.1, networks := acc.2, volumes := [("filebeat_data", ())] }

/-! ### Spec-level address vocabulary

The source never parses addresses; the following definitions give the
standard meaning of the spec's phrases "dotted quad", "CIDR range" and
"address within the range", used to state the range-membership claims. -/

/-- Parse one decimal octet: nonempty, all digits, value at most 255. -/
def parseOctet (cs : List Char) : Option Nat :=
  if cs ≠ [] ∧ (∀ c ∈ cs, c.isDigit = true) ∧ decValue cs ≤ 255 then some (decValue cs)
  else none

/-- The numeric value of a dotted quad. -/
def ipVal (a b c d : Nat) : Nat := ((a * 256 + b) * 256 + c) * 256 + d

/-- Parse a dotted-quad IPv4 address to its 32-bit numeric value. -/
def parseIPv4 (s : String) : Option Nat :=
  match splitOnC '.' s.data with
  | [A, B, C, D] =>
    match parseOctet A, parseOctet B, parseOctet C, parseOctet D with
    | some a, some b, some c, some d => some (ipVal a b c d)
    | _, _, _, _ => none
  | _ => none

/-- Parse a decimal prefix length: nonempty, all digits, at most 32. -/
def parsePrefixLen (cs : List Char) : Option Nat :=
  if cs ≠ [] ∧ (∀ c ∈ cs, c.isDigit = true) ∧ decValue cs ≤ 32 then some (decValue cs)
  else none

/-- Parse a CIDR string `addr/len` to (numeric address, prefix length). -/
def parseCIDR (s : String) : Option (Nat × Nat) :=
  match splitOnC '/' s.data with
  | [a, p] =>
    match parseIPv4 ⟨a⟩, parsePrefixLen p with
    | some base, some len => some (base, len)
    | _, _ => none
  | _ => none

/-- An address string lies within a CIDR range: both parse and they agree
on the first `p` bits. -/
def inRange (cidr addr : String) : Bool :=
  match parseCIDR cidr, parseIPv4 addr with
  | some (b, p), some a => a / 2 ^ (32 - p) == b / 2 ^ (32 - p)
  | _, _ => false

/-! ### Normal form of the generated document

Because every key the script inserts is fresh (proved below), the
insertion-ordered maps are plain appends; `composeNF` is that explicit
form. -/

/-- The three infrastructure service entries, in insertion order. -/
def infraServices (n : Nat) : List (String × ServiceDef) :=
  [("proxy", proxyDef n), ("cidrx", cidrxDef n), ("filebeat", filebeatDef n)]

/-- The (name, definition) entry of one client slot; `i` is the 1-based
segment index. -/
def clientEntry (i : Nat) (subnet : String) (interval : Rat) (j : Nat) :
    String × ServiceDef :=
  (clientName i j, clientDef (netName i) (clientAddr subnet j) interval (clientName i j))

/-- All client entries of the segment with 0-based index `i`. -/
def clientEntries (i : Nat) (sp : SegmentSpec) : List (String × ServiceDef) :=
  (List.range' 1 sp.count.toNat).map (clientEntry (i + 1) sp.subnet sp.interval)

/-- All client entries of a spec list, starting at 0-based segment index `i`. -/
def allClientEntries : Nat → List SegmentSpec → List (String × ServiceDef)
  | _, [] => []
  | i, sp :: rest => clientEntries i sp ++ allClientEntries (i + 1) rest

/-- All network entries of a spec list, starting at 0-based segment index `i`. -/
def allNetEntries : Nat → List SegmentSpec → List (String × NetworkDef)
  | _, [] => []
  | i, sp :: rest => (netName (i + 1), networkDef sp.subnet) :: allNetEntries (i + 1) rest

/-- The generated document in explicit (append) normal form. -/
def composeNF (specs : List SegmentSpec) : Compose where
  services := infraServices specs.length ++ allClientEntries 0 specs
  networks := allNetEntries 0 specs
  volumes := [("filebeat_data", ())]

/-- The client service names, segment by segment in input order and slot
by slot within a segment, starting at 0-based segment index `i`. -/
def segmentClientNames : Nat → List SegmentSpec → List String
  | _, [] => []
  | i, sp :: rest =>
      (List.range' 1 sp.count.toNat).map (clientName (i + 1)) ++ segmentClientNames (i + 1) rest

/-! ### Decimal rendering: round trip, digit shape, injectivity -/

/-- For a digit value below ten, `Nat.digitChar` is the ASCII digit. -/
theorem digitChar_toNat {n : Nat} (h : n < 10) : (Nat.digitChar n).toNat = 48 + n := by
  interval_cases n <;> rfl

/-- For a digit value below ten, `Nat.digitChar` yields a digit character. -/
theorem digitChar_isDigit {n : Nat} (h : n < 10) : (Nat.digitChar n).isDigit = true := by
  interval_cases n <;> rfl

/-- Folding the decimal-value step over the digits of `n` recovers `n`
(shifted past any accumulator). -/
theorem natToDecAux_foldl :
    ∀ fuel n a, n < fuel →
      (natToDecAux fuel n).foldl (fun x c => x * 10 + (c.toNat - 48)) a
        = a * 10 ^ (natToDecAux fuel n).length + n := by
  intro fuel
  induction fuel with
  | zero => intro n a h; exact absurd h (Nat.not_lt_zero n)
  | succ f ih =>
    intro n a h
    by_cases h10 : n < 10
    · simp only [natToDecAux, if_pos h10, List.foldl_cons, List.foldl_nil, List.length_cons,
        List.length_nil, digitChar_toNat h10, pow_one, zero_add]
      omega
    · have hrec : n / 10 < f := by
        have := Nat.div_lt_self (show 0 < n by omega) (show 1 < 10 by omega)
        omega
      simp only [natToDecAux, if_neg h10, List.foldl_append, List.foldl_cons, List.foldl_nil,
        List.length_append, List.length_cons, List.length_nil]
      rw [ih (n / 10) a hrec, digitChar_toNat (Nat.mod_lt n (by omega))]
      generalize (natToDecAux f (n / 10)).length = L
      have hp : 10 ^ (L + (0 + 1)) = 10 ^ L * 10 := by ring
      rw [hp, Nat.add_mul, Nat.mul_assoc]
      have hdm := Nat.div_add_mod n 10
      generalize a * (10 ^ L * 10) = A
      omega

/-- Decimal rendering followed by decimal valuation is the identity. -/
theorem decValue_natToDecAux {fuel n : Nat} (h : n < fuel) :
    decValue (natToDecAux fuel n) = n := by
  unfold decValue
  rw [natToDecAux_foldl fuel n 0 h, Nat.zero_mul, Nat.zero_add]

/-- The decimal value of the rendered string of `n` is `n`. -/
theorem decValue_natS (n : Nat) : decValue (natS n).data = n :=
  decValue_natToDecAux (Nat.lt_succ_self n)

/-- Decimal rendering is injective. -/
theorem natS_inj {m n : Nat} (h : natS m = natS n) : m = n := by
  have hd : decValue (natS m).data = decValue (natS n).data := by rw [h]
  rw [decValue_natS, decValue_natS] at hd
  exact hd

/-- Every character in the decimal rendering is a digit. -/
theorem natToDecAux_digits :
    ∀ fuel n, n < fuel → ∀ c ∈ natToDecAux fuel n, c.isDigit = true := by
  intro fuel
  induction fuel with
  | zero => intro n h; exact absurd h (Nat.not_lt_zero n)
  | succ f ih =>
    intro n h c hc
    by_cases h10 : n < 10
    · simp only [natToDecAux, if_pos h10, List.mem_singleton] at hc
      rw [hc]; exact digitChar_isDigit h10
    · have hrec : n / 10 < f := by
        have := Nat.div_lt_self (show 0 < n by omega) (show 1 < 10 by omega)
        omega
      simp only [natToDecAux, if_neg h10, List.mem_append, List.mem_singleton] at hc
      rcases hc with hc | hc
      · exact ih (n / 10) hrec c hc
      · rw [hc]; exact digitChar_isDigit (Nat.mod_lt n (by omega))

/-- Every character of the rendered string of `n` is a digit. -/
theorem natS_digits (n : Nat) : ∀ c ∈ (natS n).data, c.isDigit = true :=
  natToDecAux_digits (n + 1) n (Nat.lt_succ_self n)

/-- The decimal rendering of a natural number is nonempty. -/
theorem natToDecAux_ne_nil {fuel n : Nat} (h : n < fuel) : natToDecAux fuel n ≠ [] := by
  cases fuel with
  | zero => exact absurd h (Nat.not_lt_zero n)
  | succ f =>
    by_cases h10 : n < 10
    · simp [natToDecAux, if_pos h10]
    · simp [natToDecAux, if_neg h10]

/-- The rendered string of `n` is nonempty. -/
theorem natS_ne_nil (n : Nat) : (natS n).data ≠ [] :=
  natToDecAux_ne_nil (Nat.lt_succ_self n)

/-- A digit character is distinct from any non-digit character. -/
theorem isDigit_ne {c x : Char} (h : c.isDigit = true) (hx : x.isDigit = false) : ¬ c = x := by
  intro he
  rw [he, hx] at h
  cases h

/-! ### Splitting lemmas -/

/-- `splitOnC` never returns the empty list of pieces. -/
theorem splitOnC_ne_nil (sep : Char) (l : List Char) : splitOnC sep l ≠ [] := by
  cases l with
  | nil => simp [splitOnC]
  | cons c cs =>
    simp only [splitOnC]
    by_cases hc : c = sep
    · simp [hc]
    · simp only [if_neg hc]
      cases splitOnC sep cs <;> simp

/-- A separator-free list splits into the single piece it is. -/
theorem splitOnC_not_mem {sep : Char} {l : List Char} (h : sep ∉ l) : splitOnC sep l = [l] := by
  induction l with
  | nil => rfl
  | cons c cs ih =>
    have hc : ¬ c = sep := fun he => h (by simp [he])
    have hcs : sep ∉ cs := fun hm => h (List.mem_cons_of_mem c hm)
    simp only [splitOnC, if_neg hc, ih hcs]

/-- Splitting distributes over a separator occurrence after a
separator-free prefix. -/
theorem splitOnC_append {sep : Char} {a : List Char} (b : List Char) (h : sep ∉ a) :
    splitOnC sep (a ++ sep :: b) = a :: splitOnC sep b := by
  induction a with
  | nil => simp [splitOnC]
  | cons c cs ih =>
    have hc : ¬ c = sep := fun he => h (by simp [he])
    have hcs : sep ∉ cs := fun hm => h (List.mem_cons_of_mem c hm)
    have ih' := ih hcs
    simp only [List.cons_append, splitOnC, if_neg hc, List.append_eq] at ih' ⊢
    rw [ih']

/-- Re-joining the pieces of a split recovers the original list. -/
theorem joinSep_splitOnC (sep : Char) (l : List Char) : joinSep sep (splitOnC sep l) = l := by
  induction l with
  | nil => rfl
  | cons c cs ih =>
    obtain ⟨t, ts, hts⟩ : ∃ t ts, splitOnC sep cs = t :: ts := by
      cases h : splitOnC sep cs with
      | nil => exact absurd h (splitOnC_ne_nil sep cs)
      | cons t ts => exact ⟨t, ts, rfl⟩
    rw [hts] at ih
    simp only [splitOnC]
    by_cases hc : c = sep
    · rw [if_pos hc, hts]
      cases ts with
      | nil =>
        simp only [joinSep] at ih ⊢
        rw [List.nil_append, ih, hc]
      | cons u us =>
        simp only [joinSep] at ih ⊢
        rw [List.nil_append, ih, hc]
    · rw [if_neg hc, hts]
      cases ts with
      | nil =>
        simp only [joinSep] at ih ⊢
        rw [ih]
      | cons u us =>
        simp only [joinSep] at ih ⊢
        rw [List.cons_append, ih]

/-- No piece of a split contains the separator. -/
theorem mem_splitOnC_not_mem {sep : Char} :
    ∀ {l part : List Char}, part ∈ splitOnC sep l → sep ∉ part := by
  intro l
  induction l with
  | nil =>
    intro part h
    simp only [splitOnC, List.mem_singleton] at h
    simp [h]
  | cons c cs ih =>
    intro part h
    simp only [splitOnC] at h
    by_cases hc : c = sep
    · rw [if_pos hc] at h
      rcases List.mem_cons.mp h with h1 | h2
      · simp [h1]
      · exact ih h2
    · rw [if_neg hc] at h
      cases hts : splitOnC sep cs with
      | nil => exact absurd hts (splitOnC_ne_nil sep cs)
      | cons t ts =>
        rw [hts] at h
        rcases List.mem_cons.mp h with h1 | h2
        · subst h1
          intro hm
          rcases List.mem_cons.mp hm with h3 | h4
          · exact hc h3.symm
          · exact ih (hts ▸ List.mem_cons_self t ts) h4
        · exact ih (hts ▸ List.mem_cons_of_mem t h2)

/-- Dropping while a predicate holds skips a block where it holds
everywhere. -/
theorem dropWhile_append_all {p : Char → Bool} {l1 : List Char} (l2 : List Char)
    (h : ∀ c ∈ l1, p c = true) : (l1 ++ l2).dropWhile p = l2.dropWhile p := by
  induction l1 with
  | nil => rfl
  | cons c cs ih =>
    simp only [List.cons_append, List.dropWhile_cons]
    rw [h c (List.mem_cons_self c cs)]
    exact ih fun c hc => h c (List.mem_cons_of_mem _ hc)

/-- The textual base before the last dot, for a string whose data is a
prefix followed by a dot and a dot-free suffix. -/
theorem rsplitBase_eq {u : String} {s t : List Char} (hu : u.data = s ++ '.' :: t)
    (ht : '.' ∉ t) : rsplitBase u = ⟨s⟩ := by
  unfold rsplitBase
  rw [if_pos (by rw [hu]; exact List.mem_append_right s (List.mem_cons_self _ t))]
  rw [hu]
  have hrev : (s ++ '.' :: t).reverse = t.reverse ++ '.' :: s.reverse := by
    simp [List.reverse_append]
  rw [hrev, dropWhile_append_all ('.' :: s.reverse)
    (fun c hc => by
      have : ¬ c = '.' := fun he => ht (he ▸ List.mem_reverse.mp hc)
      simpa using this)]
  simp [List.dropWhile_cons]

/-! ### String data helpers and name distinctness -/

/-- Data of a concatenation is the concatenation of the data. -/
theorem strData_append (a b : String) : (a ++ b).data = a.data ++ b.data := rfl

/-- Splitting an underscore-marked concatenation is unambiguous when the
parts are underscore-free. -/
theorem append_underscore_inj :
    ∀ {a a' b b' : List Char}, (∀ c ∈ a, ¬ c = '_') → (∀ c ∈ a', ¬ c = '_') →
      a ++ '_' :: b = a' ++ '_' :: b' → a = a' ∧ b = b' := by
  intro a
  induction a with
  | nil =>
    intro a' b b' _ ha' h
    cases a' with
    | nil => simpa using h
    | cons y ys =>
      simp only [List.nil_append, List.cons_append, List.cons.injEq] at h
      exact absurd h.1.symm (ha' y (List.mem_cons_self y ys))
  | cons x xs ih =>
    intro a' b b' ha ha' h
    cases a' with
    | nil =>
      simp only [List.cons_append, List.nil_append, List.cons.injEq] at h
      exact absurd h.1 (ha x (List.mem_cons_self x xs))
    | cons y ys =>
      simp only [List.cons_append, List.cons.injEq] at h
      obtain ⟨hxy, htl⟩ := h
      obtain ⟨h1, h2⟩ := ih (fun c hc => ha c (List.mem_cons_of_mem x hc))
        (fun c hc => ha' c (List.mem_cons_of_mem y hc)) htl
      exact ⟨by rw [hxy, h1], h2⟩

/-- The derived client names determine the segment index and the slot. -/
theorem clientName_inj {i j i' j' : Nat} (h : clientName i j = clientName i' j') :
    i = i' ∧ j = j' := by
  have hd := congrArg String.data h
  simp only [clientName, strData_append, List.append_assoc, List.singleton_append] at hd
  have hd2 := List.append_cancel_left hd
  have hsplit := append_underscore_inj
    (fun c hc => isDigit_ne (natS_digits i c hc) rfl)
    (fun c hc => isDigit_ne (natS_digits i' c hc) rfl) hd2
  refine ⟨natS_inj ?_, natS_inj ?_⟩
  · exact congrArg String.mk hsplit.1
  · exact congrArg String.mk hsplit.2

/-- The derived network names determine the segment index. -/
theorem netName_inj {i i' : Nat} (h : netName i = netName i') : i = i' := by
  have hd := congrArg String.data h
  simp only [netName, strData_append] at hd
  exact natS_inj (congrArg String.mk (List.append_cancel_left hd))

/-- A derived client name is never the name of an infrastructure service. -/
theorem clientName_ne_infra (i j : Nat) :
    ¬ clientName i j = "proxy" ∧ ¬ clientName i j = "cidrx" ∧ ¬ clientName i j = "filebeat" := by
  refine ⟨fun h => ?_, fun h => ?_, fun h => ?_⟩ <;>
  · have hd := congrArg String.data h
    simp only [clientName, strData_append, List.append_assoc, List.cons_append,
      List.cons.injEq, true_and] at hd
    exact absurd hd.1 (by decide)

/-! ### The generated document in normal form -/

/-- Inserting a key not yet present appends the binding. -/
theorem dinsert_fresh {α : Type} {m : List (String × α)} {k : String} (v : α)
    (h : ∀ p ∈ m, ¬ p.1 = k) : dinsert m k v = m ++ [(k, v)] := by
  unfold dinsert
  rw [if_neg]
  intro hany
  simp only [List.any_eq_true, beq_iff_eq] at hany
  obtain ⟨p, hp, he⟩ := hany
  exact h p hp he

/-- The client-insertion fold appends one entry per slot when all the
slot names are fresh. -/
theorem clientFold_eq (i : Nat) (subnet : String) (iv : Rat) :
    ∀ (n s : Nat) (svcs : List (String × ServiceDef)),
      (∀ j p, s ≤ j → p ∈ svcs → ¬ p.1 = clientName (i + 1) j) →
      (List.range' s n).foldl
          (fun acc j =>
            dinsert acc (clientName (i + 1) j)
              (clientDef (netName (i + 1)) (clientAddr subnet j) iv (clientName (i + 1) j)))
          svcs
        = svcs ++ (List.range' s n).map (clientEntry (i + 1) subnet iv) := by
  intro n
  induction n with
  | zero => intro s svcs _; simp [List.range']
  | succ m ih =>
    intro s svcs h
    rw [show List.range' s (m + 1) = s :: List.range' (s + 1) m from rfl]
    simp only [List.foldl_cons, List.map_cons]
    rw [dinsert_fresh _ fun p hp => h s p le_rfl hp]
    rw [ih (s + 1) _ ?_]
    · simp [clientEntry]
    · intro j p hj hp
      rcases List.mem_append.mp hp with h1 | h2
      · exact h j p (by omega) h1
      · intro he
        simp only [List.mem_singleton] at h2
        rw [h2] at he
        have := (clientName_inj he).2
        omega

/-- `addClients` appends the segment's client entries when they are fresh. -/
theorem addClients_eq (i : Nat) (sp : SegmentSpec) (svcs : List (String × ServiceDef))
    (h : ∀ j p, p ∈ svcs → ¬ p.1 = clientName (i + 1) j) :
    addClients i sp svcs = svcs ++ clientEntries i sp := by
  unfold addClients clientEntries
  exact clientFold_eq i sp.subnet sp.interval sp.count.toNat 1 svcs
    fun j p _ hp => h j p hp

/-- The segment loop appends the per-segment client and network entries
when every to-be-inserted name is fresh. -/
theorem segLoop_eq :
    ∀ (specs : List SegmentSpec) (i : Nat) (svcs : List (String × ServiceDef))
      (nets : List (String × NetworkDef)),
      (∀ i' j p, i ≤ i' → p ∈ svcs → ¬ p.1 = clientName (i' + 1) j) →
      (∀ i' q, i ≤ i' → q ∈ nets → ¬ q.1 = netName (i' + 1)) →
      segLoop i specs (svcs, nets)
        = (svcs ++ allClientEntries i specs, nets ++ allNetEntries i specs) := by
  intro specs
  induction specs with
  | nil => intro i svcs nets _ _; simp [segLoop, allClientEntries, allNetEntries]
  | cons sp rest ih =>
    intro i svcs nets hs hn
    simp only [segLoop]
    rw [dinsert_fresh _ fun q hq => hn i q le_rfl hq]
    rw [addClients_eq i sp svcs fun j p hp => hs i j p le_rfl hp]
    rw [ih (i + 1) _ _ ?_ ?_]
    · simp [allClientEntries, allNetEntries]
    · intro i' j p hi' hp
      rcases List.mem_append.mp hp with h1 | h2
      · exact hs i' j p (by omega) h1
      · intro he
        obtain ⟨j', _, hj'⟩ := List.mem_map.mp h2
        rw [← hj'] at he
        have := (clientName_inj he).1
        omega
    · intro i' q hi' hq
      rcases List.mem_append.mp hq with h1 | h2
      · exact hn i' q (by omega) h1
      · intro he
        simp only [List.mem_singleton] at h2
        rw [h2] at he
        have := netName_inj he
        omega

/-- Every inserted key is fresh, so the generated document is the
explicit append normal form. -/
theorem generate_compose_eq (specs : List SegmentSpec) :
    generate_compose specs = composeNF specs := by
  have h0 :
      dinsert
          (dinsert (dinsert ([] : List (String × ServiceDef)) "proxy" (proxyDef specs.length))
            "cidrx" (cidrxDef specs.length))
          "filebeat" (filebeatDef specs.length)
        = infraServices specs.length := rfl
  have hfresh1 : ∀ i' j p, 0 ≤ i' → p ∈ infraServices specs.length →
      ¬ p.1 = clientName (i' + 1) j := by
    intro i' j p _ hp
    have hinfra := clientName_ne_infra (i' + 1) j
    simp only [infraServices, List.mem_cons, List.not_mem_nil, or_false] at hp
    rcases hp with h1 | h1 | h1 <;> rw [h1] <;> intro he
    · exact hinfra.1 he.symm
    · exact hinfra.2.1 he.symm
    · exact hinfra.2.2 he.symm
  have key := segLoop_eq specs 0 (infraServices specs.length) []
    hfresh1 fun _ q _ hq => absurd hq (List.not_mem_nil q)
  simp only [generate_compose, h0, key, composeNF, List.nil_append]

/-! ### Counting and membership in the normal form -/

/-- One segment contributes exactly `count.toNat` client entries. -/
theorem length_clientEntries (i : Nat) (sp : SegmentSpec) :
    (clientEntries i sp).length = sp.count.toNat := by
  simp [clientEntries]

/-- The client entries of a spec list number the sum of the counts. -/
theorem length_allClientEntries :
    ∀ (specs : List SegmentSpec) (i : Nat),
      (allClientEntries i specs).length = (specs.map fun sp => sp.count.toNat).sum := by
  intro specs
  induction specs with
  | nil => intro i; rfl
  | cons sp rest ih =>
    intro i
    simp [allClientEntries, length_clientEntries, ih]

/-- There is one network entry per spec. -/
theorem length_allNetEntries :
    ∀ (specs : List SegmentSpec) (i : Nat), (allNetEntries i specs).length = specs.length := by
  intro specs
  induction specs with
  | nil => intro i; rfl
  | cons sp rest ih =>
    intro i
    simp [allNetEntries, ih]

/-- The generated document has `3 + Σ count` services. -/
theorem services_length (specs : List SegmentSpec) :
    (generate_compose specs).services.length
      = 3 + (specs.map fun sp => sp.count.toNat).sum := by
  rw [generate_compose_eq]
  simp [composeNF, infraServices, length_allClientEntries]
  omega

/-- The generated document has one network per spec. -/
theorem networks_length (specs : List SegmentSpec) :
    (generate_compose specs).networks.length = specs.length := by
  rw [generate_compose_eq]
  simp [composeNF, length_allNetEntries]

/-- Any member of the client entries arises from a spec and a slot in
range. -/
theorem mem_allClientEntries :
    ∀ (specs : List SegmentSpec) (k : Nat) (p : String × ServiceDef),
      p ∈ allClientEntries k specs →
      ∃ i sp j, specs.get? i = some sp ∧ 1 ≤ j ∧ j ≤ sp.count.toNat ∧
        p = clientEntry (k + i + 1) sp.subnet sp.interval j := by
  intro specs
  induction specs with
  | nil => intro k p h; simp [allClientEntries] at h
  | cons sp rest ih =>
    intro k p h
    simp only [allClientEntries, List.mem_append] at h
    rcases h with h | h
    · simp only [clientEntries, List.mem_map] at h
      obtain ⟨j, hj, hp⟩ := h
      rw [List.mem_range'_1] at hj
      exact ⟨0, sp, j, rfl, hj.1, by omega, by rw [← hp]⟩
    · obtain ⟨i, sp', j, hget, h1, h2, hp⟩ := ih (k + 1) p h
      exact ⟨i + 1, sp', j, hget, h1, h2,
        by rw [hp, show k + 1 + i + 1 = k + (i + 1) + 1 by omega]⟩

/-- Conversely, every in-range slot of every spec has its entry among the
client entries. -/
theorem clientEntry_mem :
    ∀ (specs : List SegmentSpec) (k i : Nat) (sp : SegmentSpec),
      specs.get? i = some sp → ∀ j, 1 ≤ j → j ≤ sp.count.toNat →
      clientEntry (k + i + 1) sp.subnet sp.interval j ∈ allClientEntries k specs := by
  intro specs
  induction specs with
  | nil => intro k i sp h; simp at h
  | cons sp0 rest ih =>
    intro k i sp hget j h1 h2
    cases i with
    | zero =>
      have hsp : sp0 = sp := by
        have : some sp0 = some sp := hget
        injection this
      subst hsp
      apply List.mem_append_left
      simp only [clientEntries, List.mem_map]
      exact ⟨j, List.mem_range'_1.mpr ⟨h1, by omega⟩, rfl⟩
    | succ i' =>
      apply List.mem_append_right
      have := ih (k + 1) i' sp hget j h1 h2
      rw [show k + (i' + 1) + 1 = k + 1 + i' + 1 by omega]
      exact this

/-- Every spec's network entry is among the network entries. -/
theorem netEntry_mem :
    ∀ (specs : List SegmentSpec) (k i : Nat) (sp : SegmentSpec),
      specs.get? i = some sp →
      (netName (k + i + 1), networkDef sp.subnet) ∈ allNetEntries k specs := by
  intro specs
  induction specs with
  | nil => intro k i sp h; simp at h
  | cons sp0 rest ih =>
    intro k i sp hget
    cases i with
    | zero =>
      have hsp : sp0 = sp := by
        have : some sp0 = some sp := hget
        injection this
      subst hsp
      exact List.mem_cons_self _ _
    | succ i' =>
      apply List.mem_cons_of_mem
      have := ih (k + 1) i' sp hget
      rw [show k + (i' + 1) + 1 = k + 1 + i' + 1 by omega]
      exact this

/-- The network keys are the derived names `net(k+1) .. net(k+len)`. -/
theorem allNetEntries_keys :
    ∀ (specs : List SegmentSpec) (k : Nat),
      (allNetEntries k specs).map Prod.fst = (List.range' (k + 1) specs.length).map netName := by
  intro specs
  induction specs with
  | nil => intro k; rfl
  | cons sp rest ih =>
    intro k
    simp only [allNetEntries, List.map_cons, List.length_cons,
      show List.range' (k + 1) (rest.length + 1) = (k + 1) :: List.range' (k + 2) rest.length
        from rfl]
    rw [ih (k + 1)]

/-- The infrastructure membership keys coincide with `net1 .. netN`. -/
theorem proxyNets_keys (n : Nat) :
    (proxyNets n).map Prod.fst = (List.range' 1 n).map netName := by
  simp only [proxyNets, List.map_map, List.range'_eq_map_range]
  exact List.map_congr_left fun a _ => by simp [Nat.add_comm]

/-- The network keys of the generated document. -/
theorem networks_keys (specs : List SegmentSpec) :
    (generate_compose specs).networks.map Prod.fst
      = (List.range' 1 specs.length).map netName := by
  rw [generate_compose_eq]
  exact allNetEntries_keys specs 0

/-! ### Parsing lemmas for the spec-level address vocabulary -/

/-- Inversion of a successful octet parse. -/
theorem parseOctet_some {cs : List Char} {v : Nat} (h : parseOctet cs = some v) :
    cs ≠ [] ∧ (∀ c ∈ cs, c.isDigit = true) ∧ decValue cs ≤ 255 ∧ v = decValue cs := by
  unfold parseOctet at h
  split at h
  · rename_i hcond
    injection h with h
    exact ⟨hcond.1, hcond.2.1, hcond.2.2, h.symm⟩
  · cases h

/-- Inversion of a successful prefix-length parse. -/
theorem parsePrefixLen_some {cs : List Char} {v : Nat} (h : parsePrefixLen cs = some v) :
    cs ≠ [] ∧ (∀ c ∈ cs, c.isDigit = true) ∧ decValue cs ≤ 32 ∧ v = decValue cs := by
  unfold parsePrefixLen at h
  split at h
  · rename_i hcond
    injection h with h
    exact ⟨hcond.1, hcond.2.1, hcond.2.2, h.symm⟩
  · cases h

/-- The octet parse of a rendered number below 256 succeeds with that
number. -/
theorem parseOctet_natS {n : Nat} (h : n ≤ 255) : parseOctet (natS n).data = some n := by
  unfold parseOctet
  rw [if_pos ⟨natS_ne_nil n, natS_digits n, by rw [decValue_natS]; exact h⟩, decValue_natS]

/-- A successfully parsed dotted quad decomposes into four valid octet
pieces. -/
theorem parseIPv4_decomp {s : String} {v : Nat} (h : parseIPv4 s = some v) :
    ∃ A B C D : List Char,
      s.data = A ++ '.' :: (B ++ '.' :: (C ++ '.' :: D)) ∧
      (A ≠ [] ∧ (∀ c ∈ A, c.isDigit = true) ∧ decValue A ≤ 255) ∧
      (B ≠ [] ∧ (∀ c ∈ B, c.isDigit = true) ∧ decValue B ≤ 255) ∧
      (C ≠ [] ∧ (∀ c ∈ C, c.isDigit = true) ∧ decValue C ≤ 255) ∧
      (D ≠ [] ∧ (∀ c ∈ D, c.isDigit = true) ∧ decValue D ≤ 255) ∧
      v = ipVal (decValue A) (decValue B) (decValue C) (decValue D) := by
  unfold parseIPv4 at h
  split at h
  · rename_i A B C D heq
    split at h
    · rename_i a b c d ha hb hc hd
      injection h with h
      obtain ⟨hA1, hA2, hA3, hA4⟩ := parseOctet_some ha
      obtain ⟨hB1, hB2, hB3, hB4⟩ := parseOctet_some hb
      obtain ⟨hC1, hC2, hC3, hC4⟩ := parseOctet_some hc
      obtain ⟨hD1, hD2, hD3, hD4⟩ := parseOctet_some hd
      refine ⟨A, B, C, D, ?_, ⟨hA1, hA2, hA3⟩, ⟨hB1, hB2, hB3⟩, ⟨hC1, hC2, hC3⟩,
        ⟨hD1, hD2, hD3⟩, ?_⟩
      · have hjoin := joinSep_splitOnC '.' s.data
        rw [heq] at hjoin
        rw [← hjoin]
        rfl
      · rw [← h, hA4, hB4, hC4, hD4]
    · cases h
  · cases h

/-- A successfully parsed CIDR string decomposes into four octet pieces,
a slash, and a digit prefix length. -/
theorem parseCIDR_decomp {s : String} {b p : Nat} (h : parseCIDR s = some (b, p)) :
    ∃ A B C D P : List Char,
      s.data = A ++ '.' :: (B ++ '.' :: (C ++ '.' :: (D ++ '/' :: P))) ∧
      (A ≠ [] ∧ (∀ c ∈ A, c.isDigit = true) ∧ decValue A ≤ 255) ∧
      (B ≠ [] ∧ (∀ c ∈ B, c.isDigit = true) ∧ decValue B ≤ 255) ∧
      (C ≠ [] ∧ (∀ c ∈ C, c.isDigit = true) ∧ decValue C ≤ 255) ∧
      (D ≠ [] ∧ (∀ c ∈ D, c.isDigit = true) ∧ decValue D ≤ 255) ∧
      (∀ c ∈ P, c.isDigit = true) ∧
      b = ipVal (decValue A) (decValue B) (decValue C) (decValue D) ∧ p = decValue P := by
  unfold parseCIDR at h
  split at h
  · rename_i a pl heq
    split at h
    · rename_i base len hbase hlen
      injection h with h
      have hb : base = b := congrArg Prod.fst h
      have hp : len = p := congrArg Prod.snd h
      obtain ⟨A, B, C, D, hdata, hA, hB, hC, hD, hv⟩ := parseIPv4_decomp hbase
      obtain ⟨hP1, hP2, hP3, hP4⟩ := parsePrefixLen_some hlen
      refine ⟨A, B, C, D, pl, ?_, hA, hB, hC, hD, hP2, ?_, ?_⟩
      · have hjoin := joinSep_splitOnC '/' s.data
        rw [heq] at hjoin
        have hmk : (String.mk a).data = a := rfl
        rw [hmk] at hdata
        rw [← hjoin]
        show a ++ '/' :: pl = _
        rw [hdata]
        simp [List.append_assoc]
      · rw [← hb, hv]
      · rw [← hp, hP4]
    · cases h
  · cases h

/-- The address string built for slot `j` of a well-formed CIDR spec:
its data keeps the first three octet pieces and replaces the tail by the
rendered last octet `31 + j`. -/
theorem clientAddr_data {s : String} {A B C D P : List Char}
    (hdata : s.data = A ++ '.' :: (B ++ '.' :: (C ++ '.' :: (D ++ '/' :: P))))
    (hD : ∀ c ∈ D, c.isDigit = true) (hP : ∀ c ∈ P, c.isDigit = true) (j : Nat) :
    (clientAddr s j).data = A ++ '.' :: (B ++ '.' :: (C ++ '.' :: (natS (31 + j)).data)) := by
  have hnd : '.' ∉ D ++ '/' :: P := by
    intro hm
    rcases List.mem_append.mp hm with hm | hm
    · exact absurd (hD '.' hm) (by decide)
    · rcases List.mem_cons.mp hm with hm | hm
      · exact absurd hm (by decide)
      · exact absurd (hP '.' hm) (by decide)
  have hbase : rsplitBase s = ⟨A ++ '.' :: (B ++ '.' :: C)⟩ := by
    apply rsplitBase_eq (s := A ++ '.' :: (B ++ '.' :: C)) (t := D ++ '/' :: P) _ hnd
    rw [hdata]
    simp [List.append_assoc]
  simp only [clientAddr, strData_append, hbase]
  simp [List.append_assoc]

/-- Parsing the allocated address of slot `j` under a well-formed CIDR
spec: the value keeps the upper three octets of the range's address and
has last octet `31 + j`. -/
theorem clientAddr_parseIPv4 {s : String} {b p : Nat} (hc : parseCIDR s = some (b, p))
    {j : Nat} (hj : 31 + j ≤ 255) :
    parseIPv4 (clientAddr s j) = some (b / 256 * 256 + (31 + j)) := by
  obtain ⟨A, B, C, D, P, hdata, hA, hB, hC, hD, hP, hb, hpp⟩ := parseCIDR_decomp hc
  have haddr := clientAddr_data hdata hD.2.1 hP j
  have hA' : '.' ∉ A := fun hm => absurd (hA.2.1 '.' hm) (by decide)
  have hB' : '.' ∉ B := fun hm => absurd (hB.2.1 '.' hm) (by decide)
  have hC' : '.' ∉ C := fun hm => absurd (hC.2.1 '.' hm) (by decide)
  have hN' : '.' ∉ (natS (31 + j)).data := fun hm => absurd (natS_digits _ '.' hm) (by decide)
  have hsplit : splitOnC '.' (clientAddr s j).data = [A, B, C, (natS (31 + j)).data] := by
    rw [haddr, splitOnC_append _ hA', splitOnC_append _ hB', splitOnC_append _ hC',
      splitOnC_not_mem hN']
  have hOA : parseOctet A = some (decValue A) := by
    unfold parseOctet
    rw [if_pos ⟨hA.1, hA.2.1, hA.2.2⟩]
  have hOB : parseOctet B = some (decValue B) := by
    unfold parseOctet
    rw [if_pos ⟨hB.1, hB.2.1, hB.2.2⟩]
  have hOC : parseOctet C = some (decValue C) := by
    unfold parseOctet
    rw [if_pos ⟨hC.1, hC.2.1, hC.2.2⟩]
  have harith : ipVal (decValue A) (decValue B) (decValue C) (31 + j)
      = b / 256 * 256 + (31 + j) := by
    rw [hb]
    unfold ipVal
    have := hD.2.2
    omega
  simp only [parseIPv4, hsplit, hOA, hOB, hOC, parseOctet_natS hj]
  exact congrArg some harith

/-- Dividing by `2 ^ k` for `k ≥ 8` ignores the last octet. -/
theorem div_pow_octet {X r1 r2 k : Nat} (hk : 8 ≤ k) (h1 : r1 < 256) (h2 : r2 < 256) :
    (256 * X + r1) / 2 ^ k = (256 * X + r2) / 2 ^ k := by
  have hsplit : (2 : Nat) ^ k = 256 * 2 ^ (k - 8) := by
    rw [show (256 : Nat) = 2 ^ 8 by norm_num, ← pow_add]
    congr 1
    omega
  rw [hsplit, ← Nat.div_div_eq_div_mul, ← Nat.div_div_eq_div_mul,
    Nat.mul_add_div (by norm_num), Nat.mul_add_div (by norm_num)]
  simp [Nat.div_eq_of_lt h1, Nat.div_eq_of_lt h2]

/-- The allocated address of slot `j` lies within the declared range when
the range is a CIDR of prefix length at most 24 and the last octet stays
below 256. -/
theorem clientAddr_inRange {s : String} {b p : Nat} (hc : parseCIDR s = some (b, p))
    (hp : p ≤ 24) {j : Nat} (hj : 31 + j ≤ 255) :
    inRange s (clientAddr s j) = true := by
  simp only [inRange, hc, clientAddr_parseIPv4 hc hj, beq_iff_eq]
  have h1 : b / 256 * 256 + (31 + j) = 256 * (b / 256) + (31 + j) := by ring
  have h2 : 256 * (b / 256) + b % 256 = b := Nat.div_add_mod b 256
  calc (b / 256 * 256 + (31 + j)) / 2 ^ (32 - p)
      = (256 * (b / 256) + (31 + j)) / 2 ^ (32 - p) := by rw [h1]
    _ = (256 * (b / 256) + b % 256) / 2 ^ (32 - p) :=
        div_pow_octet (by omega) (by omega) (Nat.mod_lt b (by norm_num))
    _ = b / 2 ^ (32 - p) := by rw [h2]

/-- Two distinct slots of the same segment get distinct address strings. -/
theorem clientAddr_inj {s : String} {j1 j2 : Nat} (h : clientAddr s j1 = clientAddr s j2) :
    j1 = j2 := by
  have hd := congrArg String.data h
  simp only [clientAddr, strData_append, List.append_assoc] at hd
  have hd2 := List.append_cancel_left hd
  have hd3 := List.append_cancel_left hd2
  have := natS_inj (congrArg String.mk hd3)
  omega

/-! ### Remaining helper lemmas -/

/-- The keys of the client entries are the derived client names in order. -/
theorem allClientEntries_names :
    ∀ (specs : List SegmentSpec) (k : Nat),
      (allClientEntries k specs).map Prod.fst = segmentClientNames k specs := by
  intro specs
  induction specs with
  | nil => intro k; rfl
  | cons sp rest ih =>
    intro k
    simp only [allClientEntries, segmentClientNames, List.map_append, ih]
    congr 1
    simp only [clientEntries, List.map_map]
    exact List.map_congr_left fun j _ => rfl

/-- Casting the clamped counts back to integers under positivity. -/
theorem sum_toNat_eq {specs : List SegmentSpec} (h : ∀ sp ∈ specs, 0 < sp.count) :
    (((specs.map fun sp => sp.count.toNat).sum : Nat) : Int)
      = (specs.map fun sp => sp.count).sum := by
  induction specs with
  | nil => rfl
  | cons sp rest ih =>
    simp only [List.map_cons, List.sum_cons]
    rw [Nat.cast_add]
    rw [Int.toNat_of_nonneg (le_of_lt (h sp (List.mem_cons_self sp rest)))]
    rw [ih fun q hq => h q (List.mem_cons_of_mem sp hq)]

/-! ### Claim theorems -/

/-- C3: for every list of segment specs with positive host counts, the
expanded document has exactly `len specs` networks and `3 + Σ hostCount`
services; the empty spec list yields 0 networks, exactly the three
infrastructure services (proxy, cidrx, filebeat) and 1 volume. -/
theorem C3_document_counts (specs : List SegmentSpec) (h : ∀ sp ∈ specs, 0 < sp.count) :
    (generate_compose specs).networks.length = specs.length ∧
    ((generate_compose specs).services.length : Int)
      = 3 + (specs.map fun sp => sp.count).sum ∧
    (generate_compose []).networks.length = 0 ∧
    (generate_compose []).services.map Prod.fst = ["proxy", "cidrx", "filebeat"] ∧
    (generate_compose []).volumes.length = 1 := by
  refine ⟨networks_length specs, ?_, rfl, rfl, rfl⟩
  rw [services_length]
  push_cast [← sum_toNat_eq h]
  ring

/-- Witness for C3 at the single-segment input with two clients. -/
theorem C3_document_counts_witness :
    (∀ sp ∈ [(⟨"10.0.1.0/24", 2, 0.1⟩ : SegmentSpec)], 0 < sp.count) ∧
    ((generate_compose [(⟨"10.0.1.0/24", 2, 0.1⟩ : SegmentSpec)]).networks.length
        = [(⟨"10.0.1.0/24", 2, 0.1⟩ : SegmentSpec)].length ∧
      ((generate_compose [(⟨"10.0.1.0/24", 2, 0.1⟩ : SegmentSpec)]).services.length : Int)
        = 3 + ([(⟨"10.0.1.0/24", 2, 0.1⟩ : SegmentSpec)].map fun sp => sp.count).sum ∧
      (generate_compose []).networks.length = 0 ∧
      (generate_compose []).services.map Prod.fst = ["proxy", "cidrx", "filebeat"] ∧
      (generate_compose []).volumes.length = 1) :=
  ⟨by decide, C3_document_counts [⟨"10.0.1.0/24", 2, 0.1⟩] (by decide)⟩

/-- C5 counterexample: on an input with a malformed CIDR string and a
non-positive host count, `generate_compose` does not fail; it returns a
complete document (three infrastructure services, one network whose pool
is the malformed string verbatim, one volume). -/
theorem C5_cex :
    generate_compose [⟨"not a cidr", -1, 0.1⟩]
      = { services := [("proxy", proxyDef 1), ("cidrx", cidrxDef 1), ("filebeat", filebeatDef 1)],
          networks := [("net1", networkDef "not a cidr")],
          volumes := [("filebeat_data", ())] } := by
  decide

/-- C5 amended: the source performs no input validation and never raises.
For every spec list — malformed CIDR strings and non-positive host counts
included — a complete document is produced: `3 + Σ max(hostCount, 0)`
services, one network per spec carrying its range string verbatim, and
the single volume. -/
theorem C5_no_validation (specs : List SegmentSpec) :
    (generate_compose specs).services.length
        = 3 + (specs.map fun sp => sp.count.toNat).sum ∧
    (∀ i sp, specs.get? i = some sp →
      (netName (i + 1), networkDef sp.subnet) ∈ (generate_compose specs).networks) ∧
    (generate_compose specs).volumes = [("filebeat_data", ())] := by
  refine ⟨services_length specs, ?_, ?_⟩
  · intro i sp hget
    rw [generate_compose_eq]
    have := netEntry_mem specs 0 i sp hget
    simpa using this
  · rfl

/-- Witness for C5 at the malformed input. -/
theorem C5_no_validation_witness :
    ([(⟨"not a cidr", -1, 0.1⟩ : SegmentSpec)].get? 0 = some ⟨"not a cidr", -1, 0.1⟩) ∧
    (netName 1, networkDef "not a cidr")
      ∈ (generate_compose [(⟨"not a cidr", -1, 0.1⟩ : SegmentSpec)]).networks :=
  ⟨rfl, (C5_no_validation [⟨"not a cidr", -1, 0.1⟩]).2.1 0 ⟨"not a cidr", -1, 0.1⟩ rfl⟩

/-- C2 counterexample: for a /24 range with `31 + hostCount > 254`
(hostCount 224), no `AddressSpaceExhausted` is raised; the expansion
still produces a document with all `3 + 224` services, the last client
being assigned the broadcast-level octet 255. -/
theorem C2_cex :
    (generate_compose [⟨"10.0.1.0/24", 224, 0.1⟩]).services.length = 227 ∧
    ("client1_224", clientDef "net1" "10.0.1.255" 0.1 "client1_224")
      ∈ (generate_compose [⟨"10.0.1.0/24", 224, 0.1⟩]).services := by
  constructor
  · rw [services_length]
    rfl
  · rw [generate_compose_eq]
    apply List.mem_append_right
    have h := clientEntry_mem [⟨"10.0.1.0/24", 224, 0.1⟩] 0 0 ⟨"10.0.1.0/24", 224, 0.1⟩ rfl
      224 (by omega) (by decide)
    have he : clientEntry (0 + 0 + 1) "10.0.1.0/24" 0.1 224
        = ("client1_224", clientDef "net1" "10.0.1.255" 0.1 "client1_224") := rfl
    rw [he] at h
    exact h

/-- C2 amended: the source contains no exhaustion check.  For any range
string and any `hostCount` with `31 + hostCount > 254`, the expansion
succeeds anyway: the document has `3 + hostCount` services and contains
the final client, whose address textually appends `31 + hostCount` as
last octet. -/
theorem C2_no_exhaustion (subnet : String) (iv : Rat) (c : Int)
    (hover : 254 < 31 + c) (hc1 : 1 ≤ c) :
    (generate_compose [⟨subnet, c, iv⟩]).services.length = 3 + c.toNat ∧
    (clientName 1 c.toNat,
        clientDef (netName 1) (clientAddr subnet c.toNat) iv (clientName 1 c.toNat))
      ∈ (generate_compose [⟨subnet, c, iv⟩]).services := by
  constructor
  · rw [services_length]
    simp
  · rw [generate_compose_eq]
    apply List.mem_append_right
    exact clientEntry_mem [⟨subnet, c, iv⟩] 0 0 ⟨subnet, c, iv⟩ rfl c.toNat (by omega) le_rfl

/-- Witness for C2 at hostCount 224 on a /24 range. -/
theorem C2_no_exhaustion_witness :
    (254 < 31 + (224 : Int)) ∧ (1 ≤ (224 : Int)) ∧
    ((generate_compose [(⟨"10.0.1.0/24", 224, 0.1⟩ : SegmentSpec)]).services.length
        = 3 + (224 : Int).toNat ∧
      (clientName 1 (224 : Int).toNat,
          clientDef (netName 1) (clientAddr "10.0.1.0/24" (224 : Int).toNat) 0.1
            (clientName 1 (224 : Int).toNat))
        ∈ (generate_compose [(⟨"10.0.1.0/24", 224, 0.1⟩ : SegmentSpec)]).services) :=
  ⟨by decide, by decide, C2_no_exhaustion "10.0.1.0/24" 0.1 224 (by decide) (by decide)⟩

/-- C9: the emitted document preserves construction order of keys —
services are the three infrastructure services first, then each segment's
clients in slot order, segment by segment in input order; networks appear
in segment input order (`net1 .. netN`).  The generator is a pure
function of the spec list, so regeneration from unchanged input yields
the identical document. -/
theorem C9_emission_order (specs : List SegmentSpec) :
    (generate_compose specs).services.map Prod.fst
      = "proxy" :: "cidrx" :: "filebeat" :: segmentClientNames 0 specs ∧
    (generate_compose specs).networks.map Prod.fst
      = (List.range' 1 specs.length).map netName := by
  constructor
  · rw [generate_compose_eq]
    show (infraServices specs.length ++ allClientEntries 0 specs).map Prod.fst = _
    rw [List.map_append, allClientEntries_names]
    rfl
  · exact networks_keys specs

/-- C6: each infrastructure service (proxy, cidrx, filebeat) is looked up
in the document with its full definition, and its network-membership keys
are exactly the keys of the document's networks map: infrastructure joins
every network present. -/
theorem C6_infra_on_every_network (specs : List SegmentSpec) :
    dlookup (generate_compose specs).services "proxy" = some (proxyDef specs.length) ∧
    dlookup (generate_compose specs).services "cidrx" = some (cidrxDef specs.length) ∧
    dlookup (generate_compose specs).services "filebeat" = some (filebeatDef specs.length) ∧
    (proxyDef specs.length).networks.map Prod.fst
      = (generate_compose specs).networks.map Prod.fst ∧
    (cidrxDef specs.length).networks.map Prod.fst
      = (generate_compose specs).networks.map Prod.fst ∧
    (filebeatDef specs.length).networks.map Prod.fst
      = (generate_compose specs).networks.map Prod.fst := by
  have hkeys : (proxyNets specs.length).map Prod.fst
      = (generate_compose specs).networks.map Prod.fst := by
    rw [networks_keys, proxyNets_keys]
  refine ⟨?_, ?_, ?_, hkeys, hkeys, hkeys⟩ <;>
  · rw [generate_compose_eq]
    show dlookup (infraServices specs.length ++ allClientEntries 0 specs) _ = _
    simp [infraServices, dlookup]

/-- C7: in every expanded document, the three infrastructure entries have
dependency sets none / none / exactly [proxy, cidrx], and every other
(client) service's dependency set is exactly [proxy]. -/
theorem C7_dependency_sets (specs : List SegmentSpec) :
    ∀ p ∈ (generate_compose specs).services,
      (p.1 = "proxy" → p.2.depends_on = none) ∧
      (p.1 = "cidrx" → p.2.depends_on = none) ∧
      (p.1 = "filebeat" → p.2.depends_on = some ["proxy", "cidrx"]) ∧
      (¬ p.1 = "proxy" → ¬ p.1 = "cidrx" → ¬ p.1 = "filebeat" →
        p.2.depends_on = some ["proxy"]) := by
  intro p hp
  rw [generate_compose_eq] at hp
  rcases List.mem_append.mp hp with h | h
  · simp only [infraServices, List.mem_cons, List.not_mem_nil, or_false] at h
    rcases h with h | h | h <;> subst h
    · refine ⟨fun _ => rfl, fun hx => ?_, fun hx => ?_, fun h1 _ _ => absurd rfl h1⟩
      · have hx' : ("proxy" : String) = "cidrx" := hx
        exact absurd hx' (by decide)
      · have hx' : ("proxy" : String) = "filebeat" := hx
        exact absurd hx' (by decide)
    · refine ⟨fun hx => ?_, fun _ => rfl, fun hx => ?_, fun _ h2 _ => absurd rfl h2⟩
      · have hx' : ("cidrx" : String) = "proxy" := hx
        exact absurd hx' (by decide)
      · have hx' : ("cidrx" : String) = "filebeat" := hx
        exact absurd hx' (by decide)
    · refine ⟨fun hx => ?_, fun hx => ?_, fun _ => rfl, fun _ _ h3 => absurd rfl h3⟩
      · have hx' : ("filebeat" : String) = "proxy" := hx
        exact absurd hx' (by decide)
      · have hx' : ("filebeat" : String) = "cidrx" := hx
        exact absurd hx' (by decide)
  · obtain ⟨i, sp, j, _, _, _, hpe⟩ := mem_allClientEntries specs 0 p h
    subst hpe
    refine ⟨fun hx => ?_, fun hx => ?_, fun hx => ?_, fun _ _ _ => rfl⟩
    · exact absurd hx ((clientName_ne_infra (0 + i + 1) j).1)
    · exact absurd hx ((clientName_ne_infra (0 + i + 1) j).2.1)
    · exact absurd hx ((clientName_ne_infra (0 + i + 1) j).2.2)

/-- Witness for C7 at a one-client document. -/
theorem C7_dependency_sets_witness :
    (("client1_1", clientDef "net1" "10.0.1.32" 0.1 "client1_1")
        ∈ (generate_compose [(⟨"10.0.1.0/24", 1, 0.1⟩ : SegmentSpec)]).services) ∧
    (clientDef "net1" "10.0.1.32" 0.1 "client1_1").depends_on = some ["proxy"] := by
  have hm : ("client1_1", clientDef "net1" "10.0.1.32" 0.1 "client1_1")
      ∈ (generate_compose [(⟨"10.0.1.0/24", 1, 0.1⟩ : SegmentSpec)]).services := by
    rw [generate_compose_eq]
    apply List.mem_append_right
    have h := clientEntry_mem [⟨"10.0.1.0/24", 1, 0.1⟩] 0 0 ⟨"10.0.1.0/24", 1, 0.1⟩ rfl
      1 le_rfl (by decide)
    have he : clientEntry (0 + 0 + 1) "10.0.1.0/24" 0.1 1
        = ("client1_1", clientDef "net1" "10.0.1.32" 0.1 "client1_1") := rfl
    rw [he] at h
    exact h
  exact ⟨hm,
    (C7_dependency_sets [⟨"10.0.1.0/24", 1, 0.1⟩] _ hm).2.2.2 (by decide) (by decide) (by decide)⟩

/-- C8: the document is referentially closed — every network name in any
service's membership set is a key of the networks map, and every service
name in any dependency list is a key of the services map. -/
theorem C8_referential_closure (specs : List SegmentSpec) :
    ∀ p ∈ (generate_compose specs).services,
      (∀ q ∈ p.2.networks, q.1 ∈ (generate_compose specs).networks.map Prod.fst) ∧
      (∀ deps, p.2.depends_on = some deps →
        ∀ d ∈ deps, d ∈ (generate_compose specs).services.map Prod.fst) := by
  intro p hp
  have hkeys : (generate_compose specs).services.map Prod.fst
      = "proxy" :: "cidrx" :: "filebeat" :: (allClientEntries 0 specs).map Prod.fst := by
    rw [generate_compose_eq]
    show (infraServices specs.length ++ allClientEntries 0 specs).map Prod.fst = _
    rw [List.map_append]
    rfl
  rw [generate_compose_eq] at hp
  rcases List.mem_append.mp hp with h | h
  · have hnet : ∀ q ∈ proxyNets specs.length,
        q.1 ∈ (generate_compose specs).networks.map Prod.fst := by
      intro q hq
      rw [networks_keys, ← proxyNets_keys]
      exact List.mem_map_of_mem Prod.fst hq
    simp only [infraServices, List.mem_cons, List.not_mem_nil, or_false] at h
    rcases h with h | h | h <;> subst h
    · exact ⟨hnet, fun deps hdeps => by cases hdeps⟩
    · exact ⟨hnet, fun deps hdeps => by cases hdeps⟩
    · refine ⟨hnet, fun deps hdeps => ?_⟩
      injection hdeps with hdeps
      subst hdeps
      intro d hd
      rw [hkeys]
      rcases List.mem_cons.mp hd with h1 | h1
      · subst h1; exact List.mem_cons_self _ _
      · simp only [List.mem_singleton] at h1
        subst h1
        exact List.mem_cons_of_mem _ (List.mem_cons_self _ _)
  · obtain ⟨i, sp, j, hget, _, _, hpe⟩ := mem_allClientEntries specs 0 p h
    subst hpe
    constructor
    · intro q hq
      simp only [clientEntry, clientDef, List.mem_singleton] at hq
      subst hq
      rw [networks_keys]
      have hlen : i < specs.length := by
        by_contra hn
        rw [List.get?_eq_none.mpr (by omega)] at hget
        cases hget
      exact List.mem_map_of_mem netName (List.mem_range'_1.mpr ⟨by omega, by omega⟩)
    · intro deps hdeps
      injection hdeps with hdeps
      subst hdeps
      intro d hd
      simp only [List.mem_singleton] at hd
      subst hd
      rw [hkeys]
      exact List.mem_cons_self _ _

/-- Witness for C8 at a one-client document. -/
theorem C8_referential_closure_witness :
    (("client1_1", clientDef "net1" "10.0.1.32" 0.1 "client1_1")
        ∈ (generate_compose [(⟨"10.0.1.0/24", 1, 0.1⟩ : SegmentSpec)]).services) ∧
    ∀ q ∈ (clientDef "net1" "10.0.1.32" 0.1 "client1_1").networks,
      q.1 ∈ (generate_compose [(⟨"10.0.1.0/24", 1, 0.1⟩ : SegmentSpec)]).networks.map
        Prod.fst := by
  have hm : ("client1_1", clientDef "net1" "10.0.1.32" 0.1 "client1_1")
      ∈ (generate_compose [(⟨"10.0.1.0/24", 1, 0.1⟩ : SegmentSpec)]).services := by
    rw [generate_compose_eq]
    apply List.mem_append_right
    have h := clientEntry_mem [⟨"10.0.1.0/24", 1, 0.1⟩] 0 0 ⟨"10.0.1.0/24", 1, 0.1⟩ rfl
      1 le_rfl (by decide)
    have he : clientEntry (0 + 0 + 1) "10.0.1.0/24" 0.1 1
        = ("client1_1", clientDef "net1" "10.0.1.32" 0.1 "client1_1") := rfl
    rw [he] at h
    exact h
  exact ⟨hm, (C8_referential_closure [⟨"10.0.1.0/24", 1, 0.1⟩] _ hm).1⟩

/-- C1 counterexample: the claim fails as stated.  For the spec
("10.0.1.0/24", 225, 0.1) the document contains client `client1_225`
whose assigned address is the textually out-of-range string
`10.0.1.256`, which does not lie within the declared /24 range. -/
theorem C1_cex :
    ("client1_225", clientDef "net1" "10.0.1.256" 0.1 "client1_225")
      ∈ (generate_compose [(⟨"10.0.1.0/24", 225, 0.1⟩ : SegmentSpec)]).services
    ∧ inRange "10.0.1.0/24" "10.0.1.256" = false := by
  constructor
  · rw [generate_compose_eq]
    apply List.mem_append_right
    have h := clientEntry_mem [⟨"10.0.1.0/24", 225, 0.1⟩] 0 0 ⟨"10.0.1.0/24", 225, 0.1⟩ rfl
      225 (by omega) (by decide)
    have he : clientEntry (0 + 0 + 1) "10.0.1.0/24" 0.1 225
        = ("client1_225", clientDef "net1" "10.0.1.256" 0.1 "client1_225") := rfl
    rw [he] at h
    exact h
  · decide

/-- C1 amended: for every segment whose range parses as a CIDR with
prefix length at most 24 and whose host count satisfies
`31 + hostCount ≤ 255`, the addresses assigned within the segment are
pairwise distinct, strictly increasing with slot number, and lie within
the declared range; each slot's client entry is in the document. -/
theorem C1_segment_addresses (specs : List SegmentSpec) (i : Nat) (sp : SegmentSpec)
    (hget : specs.get? i = some sp) (b p : Nat)
    (hcidr : parseCIDR sp.subnet = some (b, p)) (hp : p ≤ 24)
    (hcnt : sp.count.toNat ≤ 224) :
    ∀ j1, 1 ≤ j1 → j1 ≤ sp.count.toNat →
      ((clientName (i + 1) j1,
          clientDef (netName (i + 1)) (clientAddr sp.subnet j1) sp.interval
            (clientName (i + 1) j1))
        ∈ (generate_compose specs).services
      ∧ parseIPv4 (clientAddr sp.subnet j1) = some (b / 256 * 256 + (31 + j1))
      ∧ inRange sp.subnet (clientAddr sp.subnet j1) = true)
      ∧ ∀ j2, j2 ≤ sp.count.toNat → j1 < j2 →
          ¬ clientAddr sp.subnet j1 = clientAddr sp.subnet j2
          ∧ ∀ v1 v2, parseIPv4 (clientAddr sp.subnet j1) = some v1 →
              parseIPv4 (clientAddr sp.subnet j2) = some v2 → v1 < v2 := by
  intro j1 hj1 hj1c
  have hj1b : 31 + j1 ≤ 255 := by omega
  refine ⟨⟨?_, clientAddr_parseIPv4 hcidr hj1b, clientAddr_inRange hcidr hp hj1b⟩, ?_⟩
  · rw [generate_compose_eq]
    apply List.mem_append_right
    have := clientEntry_mem specs 0 i sp hget j1 hj1 hj1c
    simpa [clientEntry] using this
  · intro j2 hj2c hlt
    have hj2b : 31 + j2 ≤ 255 := by omega
    constructor
    · intro he
      have := clientAddr_inj he
      omega
    · intro v1 v2 hv1 hv2
      rw [clientAddr_parseIPv4 hcidr hj1b] at hv1
      rw [clientAddr_parseIPv4 hcidr hj2b] at hv2
      injection hv1 with hv1
      injection hv2 with hv2
      omega

/-- Witness for C1 at the two-client /24 document, slot 1. -/
theorem C1_segment_addresses_witness :
    ([(⟨"10.0.1.0/24", 2, 0.1⟩ : SegmentSpec)].get? 0 = some ⟨"10.0.1.0/24", 2, 0.1⟩) ∧
    parseCIDR "10.0.1.0/24" = some (167772416, 24) ∧ (24 ≤ 24) ∧
    ((2 : Int).toNat ≤ 224) ∧
    (("client1_1", clientDef "net1" "10.0.1.32" 0.1 "client1_1")
        ∈ (generate_compose [(⟨"10.0.1.0/24", 2, 0.1⟩ : SegmentSpec)]).services
      ∧ parseIPv4 "10.0.1.32" = some (167772416 / 256 * 256 + (31 + 1))
      ∧ inRange "10.0.1.0/24" "10.0.1.32" = true) := by
  refine ⟨rfl, by decide, by decide, by decide, ?_⟩
  exact (C1_segment_addresses [⟨"10.0.1.0/24", 2, 0.1⟩] 0 ⟨"10.0.1.0/24", 2, 0.1⟩ rfl
    167772416 24 (by decide) (by decide) (by decide) 1 (by decide) (by decide)).1

/-- C4: the address allocated to slot `j` of a segment whose range is a
proper CIDR network address with prefix length at most 24 parses to the
network base plus the fixed reserved offset 31 plus `j`; and the concrete
scenario ("10.0.1.0/24", 2, 0.1) yields one network `net1` with pool
`10.0.1.0/24`, the five services proxy, cidrx, filebeat,
`client1_1`@`10.0.1.32`, `client1_2`@`10.0.1.33`, and one volume. -/
theorem C4_allocator_formula (specs : List SegmentSpec) (i : Nat) (sp : SegmentSpec)
    (hget : specs.get? i = some sp) (b p : Nat)
    (hcidr : parseCIDR sp.subnet = some (b, p)) (hp : p ≤ 24)
    (hbase : b % 2 ^ (32 - p) = 0) (j : Nat) (hj1 : 1 ≤ j) (hjc : j ≤ sp.count.toNat)
    (hjb : 31 + j ≤ 255) :
    (parseIPv4 (clientAddr sp.subnet j) = some (b + (31 + j))
      ∧ (clientName (i + 1) j,
          clientDef (netName (i + 1)) (clientAddr sp.subnet j) sp.interval
            (clientName (i + 1) j))
        ∈ (generate_compose specs).services)
    ∧ ((generate_compose [(⟨"10.0.1.0/24", 2, 0.1⟩ : SegmentSpec)]).networks
        = [("net1", networkDef "10.0.1.0/24")]
      ∧ (generate_compose [(⟨"10.0.1.0/24", 2, 0.1⟩ : SegmentSpec)]).services.map Prod.fst
        = ["proxy", "cidrx", "filebeat", "client1_1", "client1_2"]
      ∧ dlookup (generate_compose [(⟨"10.0.1.0/24", 2, 0.1⟩ : SegmentSpec)]).services
          "client1_1" = some (clientDef "net1" "10.0.1.32" 0.1 "client1_1")
      ∧ dlookup (generate_compose [(⟨"10.0.1.0/24", 2, 0.1⟩ : SegmentSpec)]).services
          "client1_2" = some (clientDef "net1" "10.0.1.33" 0.1 "client1_2")
      ∧ (generate_compose [(⟨"10.0.1.0/24", 2, 0.1⟩ : SegmentSpec)]).volumes
        = [("filebeat_data", ())]) := by
  constructor
  · constructor
    · have hdvd : 256 ∣ b := by
        have h1 : (2 : Nat) ^ 8 ∣ 2 ^ (32 - p) := pow_dvd_pow 2 (by omega)
        have h2 : 2 ^ (32 - p) ∣ b := Nat.dvd_of_mod_eq_zero hbase
        have h256 : (256 : Nat) = 2 ^ 8 := by norm_num
        rw [h256]
        exact dvd_trans h1 h2
      have hv := clientAddr_parseIPv4 hcidr hjb
      rw [Nat.div_mul_cancel hdvd] at hv
      exact hv
    · rw [generate_compose_eq]
      apply List.mem_append_right
      have := clientEntry_mem specs 0 i sp hget j hj1 hjc
      simpa [clientEntry] using this
  · exact ⟨rfl, by decide, rfl, rfl, rfl⟩

/-- Witness for C4 at the concrete /24 scenario, slot 1. -/
theorem C4_allocator_formula_witness :
    ([(⟨"10.0.1.0/24", 2, 0.1⟩ : SegmentSpec)].get? 0 = some ⟨"10.0.1.0/24", 2, 0.1⟩) ∧
    parseCIDR "10.0.1.0/24" = some (167772416, 24) ∧ (24 ≤ 24) ∧
    167772416 % 2 ^ (32 - 24) = 0 ∧ ((2 : Int).toNat ≤ 224) ∧
    parseIPv4 "10.0.1.32" = some (167772416 + (31 + 1)) := by
  refine ⟨rfl, by decide, by decide, by decide, by decide, ?_⟩
  exact (C4_allocator_formula [⟨"10.0.1.0/24", 2, 0.1⟩] 0 ⟨"10.0.1.0/24", 2, 0.1⟩ rfl
    167772416 24 (by decide) (by decide) (by decide) 1 (by decide) (by decide)
    (by decide)).1.1

/-- C10: the allocator's output depends only on the slot and the portion
of the range string before its last dot: two ranges with the same base
but different last octets and prefix lengths yield identical addresses at
every slot, and single-segment documents with identical counts and
intervals have identical services maps. -/
theorem C10_prefix_independence (base d1 p1 d2 p2 : String)
    (h1 : '.' ∉ d1.data) (h2 : '.' ∉ p1.data) (h3 : '.' ∉ d2.data) (h4 : '.' ∉ p2.data) :
    (∀ j, clientAddr (base ++ "." ++ d1 ++ "/" ++ p1) j
        = clientAddr (base ++ "." ++ d2 ++ "/" ++ p2) j)
    ∧ ∀ (c : Int) (iv : Rat),
        (generate_compose [⟨base ++ "." ++ d1 ++ "/" ++ p1, c, iv⟩]).services
          = (generate_compose [⟨base ++ "." ++ d2 ++ "/" ++ p2, c, iv⟩]).services := by
  have key : ∀ (d pp : String), '.' ∉ d.data → '.' ∉ pp.data →
      rsplitBase (base ++ "." ++ d ++ "/" ++ pp) = base := by
    intro d pp hd hpp
    have hdata : (base ++ "." ++ d ++ "/" ++ pp).data
        = base.data ++ '.' :: (d.data ++ '/' :: pp.data) := by
      simp [strData_append, List.append_assoc]
    have hnd : '.' ∉ d.data ++ '/' :: pp.data := by
      intro hm
      rcases List.mem_append.mp hm with hm | hm
      · exact hd hm
      · rcases List.mem_cons.mp hm with hm | hm
        · exact absurd hm (by decide)
        · exact hpp hm
    rw [rsplitBase_eq hdata hnd]
  have haddr : ∀ j, clientAddr (base ++ "." ++ d1 ++ "/" ++ p1) j
      = clientAddr (base ++ "." ++ d2 ++ "/" ++ p2) j := by
    intro j
    unfold clientAddr
    rw [key d1 p1 h1 h2, key d2 p2 h3 h4]
  refine ⟨haddr, ?_⟩
  intro c iv
  rw [generate_compose_eq, generate_compose_eq]
  show infraServices _ ++ allClientEntries 0 _ = infraServices _ ++ allClientEntries 0 _
  congr 1
  simp only [allClientEntries, clientEntries, List.append_nil]
  exact List.map_congr_left fun j _ => by unfold clientEntry; rw [haddr j]

/-- Witness for C10 at ranges 10.0.1.0/24 and 10.0.1.128/25. -/
theorem C10_prefix_independence_witness :
    ('.' ∉ ("0" : String).data) ∧ ('.' ∉ ("24" : String).data) ∧
    ('.' ∉ ("128" : String).data) ∧ ('.' ∉ ("25" : String).data) ∧
    clientAddr ("10.0.1" ++ "." ++ "0" ++ "/" ++ "24") 1
      = clientAddr ("10.0.1" ++ "." ++ "128" ++ "/" ++ "25") 1 := by
  refine ⟨by decide, by decide, by decide, by decide, ?_⟩
  exact (C10_prefix_independence "10.0.1" "0" "24" "128" "25"
    (by decide) (by decide) (by decide) (by decide)).1 1
